import Mathlib

/-!
Verification of the ReadySetHire interview web application: a shallow
embedding of its core flow (interview-taking session walker, answer
submission, applicant status transition, AI-question schema validation and
the per-job-role request de-duplication cache), with theorems settling the
specification's claims against the code.

Sources embedded:
* `TakeInterviewQuestions` component (`InterviewQuestion`, `goToNextQuestion`)
* `TakeInterviewWelcome` component (`startInterview`)
* `TakeInterviewComplete` component (completion screen)
* `Questions.jsx` (`QuestionSchema`, `fetchAIQuestions`, `questionPromiseCache`,
  `getQuestionPromise`)
* `app.js` (`updateApplicantStatus`, `submitApplicantAnswer` boundary)
* `llm-api-server/server.js` (`QuestionSchema`, `/api/generate-question` handler)
-/

namespace ReadySetHire

/-- Difficulty levels, `z.enum(["Easy", "Intermediate", "Advanced"])`. -/
inductive Difficulty
  | Easy
  | Intermediate
  | Advanced
deriving DecidableEq, Repr

/-- A JSON-like value, the type of untrusted data crossing the LLM boundary
(what `res.json()` / the model's structured output produce). -/
inductive Json
  | null
  | bool (b : Bool)
  | num (n : Int)
  | str (s : String)
  | arr (xs : List Json)
  | obj (fields : List (String × Json))

/-- First-match field lookup in a JSON object (JS objects have unique keys,
so first-match agrees with JS property access). -/
def lookupField : List (String × Json) → String → Option Json
  | [], _ => none
  | (k, v) :: rest, key => if k = key then some v else lookupField rest key

/-- A typed, validated question suggestion: the element type of
`z.object({ question: z.string(), difficulty: z.enum([...]) })`. -/
structure QItem where
  question : String
  difficulty : Difficulty
deriving DecidableEq, Repr

/-- Parse of the difficulty enum: exactly one of the three literal strings. -/
def parseDifficulty : Json → Option Difficulty
  | .str "Easy" => some .Easy
  | .str "Intermediate" => some .Intermediate
  | .str "Advanced" => some .Advanced
  | _ => none

/-- Zod parse of one suggestion item: an object whose `question` field is a
string and whose `difficulty` field is in the enum (zod's default object
schema ignores extra keys). -/
def parseQItem : Json → Option QItem
  | .obj fs =>
    match lookupField fs "question", lookupField fs "difficulty" with
    | some (.str q), some d =>
      match parseDifficulty d with
      | some diff => some { question := q, difficulty := diff }
      | none => none
    | _, _ => none
  | _ => none

/-- Elementwise parse of the `questions` array; fails if any element fails. -/
def parseQItems : List Json → Option (List QItem)
  | [] => some []
  | j :: rest =>
    match parseQItem j, parseQItems rest with
    | some it, some its => some (it :: its)
    | _, _ => none

/-- The client schema `QuestionSchema.safeParse` from `Questions.jsx`:
`z.object({ questions: z.array(item).nonempty() })`. Succeeds exactly on an
object whose `questions` field is a non-empty array of valid items, and
returns the typed list `parsed.data.questions`. -/
def questionSchemaParse : Json → Option (List QItem)
  | .obj fs =>
    match lookupField fs "questions" with
    | some (.arr xs) =>
      match parseQItems xs with
      | some items => if xs.isEmpty then none else some items
      | none => none
    | _ => none
  | _ => none

/-- Boolean acceptance of the client-side Schema Validator
(`parsed.success` in `fetchAIQuestions`). -/
def questionSchemaAccepts (j : Json) : Bool :=
  (questionSchemaParse j).isSome

/-- Result of `fetchAIQuestions(job_role)`: the fetch either fails at the
HTTP level (`!res.ok`, rethrown), or yields a JSON body that is validated;
a schema mismatch is thrown, otherwise `parsed.data.questions` is returned. -/
inductive FetchOutcome
  | ok (items : List QItem)
  | httpError
  | schemaError

/-- The function `fetchAIQuestions` from `Questions.jsx`, with the network modelled by the
pair (did the HTTP request succeed, what JSON body arrived). -/
def fetchAIQuestions (httpOk : Bool) (body : Json) : FetchOutcome :=
  if httpOk then
    match questionSchemaParse body with
    | some items => .ok items
    | none => .schemaError
  else .httpError

/-! ### Generation Request De-duplicator

`Questions.jsx` keeps a module-level `questionPromiseCache : Map` from the
job-role string to the promise returned by `fetchAIQuestions`; nothing in the
module ever deletes or overwrites an entry. Promises are modelled as opaque
numeric handles allocated by a counter: the cache stores the handle made by
the first call, and a call that allocates a handle is exactly a call that
issues the underlying network request (`fetchAIQuestions` is invoked at the
moment the entry is created, and nowhere else). Whether the promise later
resolves or rejects does not touch the cache. -/

/-- The mutable module state of `Questions.jsx`: the promise cache, a fresh
handle counter, and the log of job roles for which a network request has
been issued (one entry per `fetchAIQuestions` invocation). -/
structure PromiseCacheState where
  cache : List (String × Nat)
  nextHandle : Nat
  requestLog : List String
deriving DecidableEq, Repr

/-- The module's initial state: `new Map()`, no requests issued. -/
def initialCacheState : PromiseCacheState := ⟨[], 0, []⟩

/-- Combined `Map.has`/`Map.get`: look a job role up in the promise cache. -/
def cacheLookup : List (String × Nat) → String → Option Nat
  | [], _ => none
  | (k, v) :: rest, key => if k = key then some v else cacheLookup rest key

/-- The function `getQuestionPromise(job_role)` from `Questions.jsx`: if the cache has no
entry for the role, invoke `fetchAIQuestions` (allocating a fresh promise
handle and logging the network request) and store it; then return the cached
entry. -/
def getQuestionPromise (job_role : String) (s : PromiseCacheState) :
    Nat × PromiseCacheState :=
  match cacheLookup s.cache job_role with
  | some h => (h, s)
  | none =>
    let h := s.nextHandle
    (h, ⟨(job_role, h) :: s.cache, h + 1, s.requestLog ++ [job_role]⟩)

/-- A sequence of `getQuestionPromise` calls (the browser is single-threaded,
so even "concurrent" UI-triggered calls interleave sequentially at the cache):
returns the handle observed by each call and the final module state. -/
def runGetQuestionPromises : List String → PromiseCacheState →
    List Nat × PromiseCacheState
  | [], s => ([], s)
  | r :: rs, s =>
    let (h, s1) := getQuestionPromise r s
    let (hs, s2) := runGetQuestionPromises rs s1
    (h :: hs, s2)

/-! ### Interview Session Walker

`TakeInterviewQuestions` (the `InterviewQuestion` component) shows the
question whose id is in the URL, and `goToNextQuestion` submits the captured
transcript as the answer and navigates. URL route parameters are modelled as
the integers their `parseInt` produces. The two awaited storage calls,
`submitApplicantAnswer` and `updateApplicantStatus`, are request/response
boundary calls; each step takes a boolean saying whether that call succeeds
or throws. -/

/-- A question row as returned by `getQuestionsByInterview` (the REST store's
question records, in store order). -/
structure Question where
  id : Int
  interview_id : Int
  question : String
  difficulty : Difficulty
deriving DecidableEq, Repr

/-- An applicant-answer row as posted by `submitApplicantAnswer` (the
`answerData` object built in `goToNextQuestion`). -/
structure AnswerData where
  interview_id : Int
  question_id : Int
  applicant_id : Int
  answer : String
deriving DecidableEq, Repr

/-- A navigation target of the interview-taking routes:
`/applicant/:applicantId/interview/:interviewId/question/:questionId` or
`/applicant/:applicantId/interview/:interviewId/complete`. -/
inductive Nav
  | toQuestion (applicantId interviewId questionId : Int)
  | toComplete (applicantId interviewId : Int)
deriving DecidableEq, Repr

/-- The expression `questions.findIndex(q => q.id === parseInt(questionId))`: index of the
first question with the given id, `-1` when none matches. -/
def findIndexById : List Question → Int → Int
  | [], _ => -1
  | q :: rest, questionId =>
    if q.id == questionId then 0
    else
      let r := findIndexById rest questionId
      if r == -1 then -1 else r + 1

/-- The `currentQuestionIndex` value computed by the component. -/
def currentQuestionIndex (questions : List Question) (questionId : Int) : Int :=
  findIndexById questions questionId

/-- The expression `questions[i].id` with JavaScript index semantics for the indices the
component can actually produce (`i ≥ 0`; a negative or out-of-range index
would make the JS code crash on `undefined.id`, which is unreachable in the
component's flow — the default `0` here is never exercised under the
theorems' hypotheses). -/
def questionIdAt (questions : List Question) (i : Int) : Int :=
  match questions.get? i.toNat with
  | some q => q.id
  | none => 0

/-- The observable effects of one `goToNextQuestion` invocation. -/
structure StepResult where
  /-- answer rows successfully created by `submitApplicantAnswer` -/
  persisted : List AnswerData
  /-- number of `updateApplicantStatus(_, 'Completed')` invocations -/
  statusCalls : Nat
  /-- whether the status PATCH was invoked and succeeded -/
  statusSet : Bool
  /-- whether the generic `window.alert('Error saving answer, …')` fired -/
  alerted : Bool
  /-- the component's `answers` dictionary after the call -/
  answers : List (Int × String)
  /-- where the component navigates (it always navigates) -/
  nav : Nav
deriving DecidableEq, Repr

/-- The function `goToNextQuestion` from `TakeInterviewQuestions`, for the question
currently in the URL (`questionId`), the accumulated speech `transcript`, and
the component's current `answers` state. `submitOk` / `statusOk` say whether
the two storage calls succeed or throw. Mirrors the source statement by
statement: stop listening (UI-only), `try` submit → record answer locally →
if last question, update status; `catch` → alert; then navigate to the next
question or to the completion screen regardless of the try's outcome. -/
def goToNextQuestion (interviewId applicantId : Int) (questions : List Question)
    (questionId : Int) (transcript : String) (answers : List (Int × String))
    (submitOk statusOk : Bool) : StepResult :=
  let idx := currentQuestionIndex questions questionId
  let isLastQuestion := idx == (questions.length : Int) - 1
  let answerToSubmit := if transcript == "" then "" else transcript
  let answerData : AnswerData :=
    ⟨interviewId, questionId, applicantId, answerToSubmit⟩
  let nav :=
    if !isLastQuestion then
      Nav.toQuestion applicantId interviewId (questionIdAt questions (idx + 1))
    else
      Nav.toComplete applicantId interviewId
  if submitOk then
    let answers2 := (questionId, answerToSubmit) :: answers
    if isLastQuestion then
      if statusOk then
        { persisted := [answerData], statusCalls := 1, statusSet := true,
          alerted := false, answers := answers2, nav := nav }
      else
        { persisted := [answerData], statusCalls := 1, statusSet := false,
          alerted := true, answers := answers2, nav := nav }
    else
      { persisted := [answerData], statusCalls := 0, statusSet := false,
        alerted := false, answers := answers2, nav := nav }
  else
    { persisted := [], statusCalls := 0, statusSet := false,
      alerted := true, answers := answers, nav := nav }

/-- One applicant session, walked by repeatedly pressing the navigation
button: starting from a question id, take a `goToNextQuestion` step, follow
its navigation while it leads to another question, and stop at the
completion screen. Each element of the trace is the step's computed question
index (`currentQuestionIndex`, as the non-negative index it is in flow)
paired with the step's effects. `transcriptAt k` is the transcript captured
for the question at index `k` and `submitOkAt k` whether its submission
succeeds; `fuel` bounds the number of steps (the session routes can only be
walked finitely often). -/
def walkAux (interviewId applicantId : Int) (questions : List Question)
    (transcriptAt : Nat → String) (submitOkAt : Nat → Bool) (statusOk : Bool) :
    Nat → Int → List (Int × String) → List (Nat × StepResult)
  | 0, _, _ => []
  | Nat.succ fuel, questionId, answers =>
    let k := (currentQuestionIndex questions questionId).toNat
    let r := goToNextQuestion interviewId applicantId questions questionId
      (transcriptAt k) answers (submitOkAt k) statusOk
    (k, r) ::
      (match r.nav with
       | Nav.toQuestion _ _ qid2 =>
         walkAux interviewId applicantId questions transcriptAt submitOkAt
           statusOk fuel qid2 r.answers
       | Nav.toComplete _ _ => [])

/-- A full session: enter at the first question (where `startInterview`
navigates) and walk; empty question lists never enter the flow. -/
def runSession (interviewId applicantId : Int) (questions : List Question)
    (transcriptAt : Nat → String) (submitOkAt : Nat → Bool) (statusOk : Bool) :
    List (Nat × StepResult) :=
  match questions with
  | [] => []
  | q :: _ =>
    walkAux interviewId applicantId questions transcriptAt submitOkAt statusOk
      questions.length q.id []

/-- Total number of `updateApplicantStatus` invocations over a session trace
(how often the Status Transition Gate fires). -/
def totalStatusCalls (trace : List (Nat × StepResult)) : Nat :=
  (trace.map (fun p => p.2.statusCalls)).sum

/-! ### Welcome screen and completion screen -/

/-- The function `startInterview` from `TakeInterviewWelcome`: navigate to the first
question only when the question list is non-empty, otherwise do nothing. -/
def startInterview (applicantId interviewId : Int) (questions : List Question) :
    Option Nav :=
  if h : 0 < questions.length then
    some (Nav.toQuestion applicantId interviewId (questions.get ⟨0, h⟩).id)
  else
    none

/-- The attribute `disabled={questions.length === 0}` on the welcome screen's start
button. -/
def startButtonDisabled (questions : List Question) : Bool :=
  questions.length == 0

/-- The text blocks `TakeInterviewComplete` renders, unconditionally on any
state (the component takes only the interview from context). -/
def interviewCompleteScreen (interviewTitle : String) : List String :=
  ["Interview Completed!",
   "Thank you for completing the interview for " ++ interviewTitle ++
     ". You may now close this window.",
   "Your responses have been successfully recorded."]

/-! ### Applicant status and the Status Transition Gate -/

/-- An applicant row of the REST store. -/
structure Applicant where
  id : Int
  interview_id : Int
  title : String
  firstname : String
  surname : String
  phone_number : Option String
  email_address : String
  interview_status : String
deriving DecidableEq, Repr

/-- Modelled from the spec: the REST storage boundary (an external
resource-oriented store, not part of this repository's sources) applies the
request `PATCH /applicant?id=eq.{id}` with body `{interview_status: status}`
by setting the `interview_status` field of the matched applicant record to
the given value, leaving every other field unchanged, and returning the
updated representation (spec §6: "resource-oriented endpoints … supporting
… update"; §3: applicant `interview_status ∈ {Not Started, Completed}`). -/
def applyStatusPatch (a : Applicant) (status : String) : Applicant :=
  { a with interview_status := status }

/-- The function `updateApplicantStatus(applicantId, status)` from `app.js`, as its effect
on the matched applicant row: a PATCH whose body is exactly
`{interview_status: status}`. -/
def updateApplicantStatus (a : Applicant) (status : String) : Applicant :=
  applyStatusPatch a status

/-- The Status Transition Gate: the call site
`updateApplicantStatus(parseInt(applicantId), 'Completed')`. -/
def completeApplicant (a : Applicant) : Applicant :=
  updateApplicantStatus a "Completed"

end ReadySetHire

namespace LlmServer

open ReadySetHire (Json Difficulty QItem lookupField parseDifficulty parseQItem parseQItems)

/-! ### The llm-api-server `/api/generate-question` endpoint

`server.js` declares its own `QuestionSchema` — textually the same zod
schema as the client's — and the handler: reject a missing/non-string/empty
`job_role` with 400; otherwise invoke the model with structured output,
`safeParse` the result, answer 502 on schema mismatch and
`res.json(parsed.data)` on success; a thrown model error answers 500. -/

/-- The server schema `QuestionSchema.safeParse` from `server.js`:
`z.object({ questions: z.array(z.object({question: z.string(), difficulty:
z.enum([...])})).nonempty() })`. -/
def serverQuestionSchemaParse : Json → Option (List QItem)
  | .obj fs =>
    match lookupField fs "questions" with
    | some (.arr xs) =>
      match parseQItems xs with
      | some items => if xs.isEmpty then none else some items
      | none => none
    | _ => none
  | _ => none

/-- The enum string of a difficulty level. -/
def difficultyToString : Difficulty → String
  | .Easy => "Easy"
  | .Intermediate => "Intermediate"
  | .Advanced => "Advanced"

/-- JSON form of one validated item (zod strips unknown keys, so
`parsed.data` holds exactly these two fields per item). -/
def qitemToJson (it : QItem) : Json :=
  .obj [("question", .str it.question),
        ("difficulty", .str (difficultyToString it.difficulty))]

/-- JSON form of `parsed.data` for the whole schema. -/
def suggestionListToJson (items : List QItem) : Json :=
  .obj [("questions", .arr (items.map qitemToJson))]

/-- The system prompt `server.js` sends to the model: the 10-question
3/3/4 difficulty split is requested here, in free text. -/
def systemPrompt : String :=
  "You are a recruiter. Generate 10 interview questions (three Easy, three Intermediate, four Advanced) based on the provided role description. Return only a JSON array of questions with 'question' and 'difficulty' fields."

/-- The HTTP replies of the `/api/generate-question` handler. -/
inductive ServerReply
  | okJson (body : Json)
  | badRequest
  | badSchema
  | serverError

/-- The `/api/generate-question` request handler. `job_role` is the request's
`job_role` parameter (`none` when absent or not a string; the empty string is
falsy in JS, so it is rejected too); `modelOk` is whether the model
invocation resolves, and `modelOutput` the structured value it resolves
with. On a schema-valid output the endpoint responds `res.json(parsed.data)`
— the validated payload (zod's parse result). -/
def generateQuestionHandler (job_role : Option String) (modelOk : Bool)
    (modelOutput : Json) : ServerReply :=
  match job_role with
  | none => .badRequest
  | some s =>
    if s == "" then .badRequest
    else if modelOk then
      match serverQuestionSchemaParse modelOutput with
      | some items => .okJson (suggestionListToJson items)
      | none => .badSchema
    else .serverError

end LlmServer

open ReadySetHire LlmServer

/-! ## Shared sample data -/

/-- A shape-valid suggestion item, as JSON. -/
def sampleEasyItem : Json :=
  .obj [("question", .str "Tell me about yourself"), ("difficulty", .str "Easy")]

/-- A second shape-valid suggestion item, as JSON. -/
def sampleEasyItem2 : Json :=
  .obj [("question", .str "Why this role?"), ("difficulty", .str "Easy")]

/-- A two-question interview, ids 1 and 2, owned by interview 9. -/
def sampleQuestions : List Question :=
  [⟨1, 9, "Tell me about yourself", .Easy⟩,
   ⟨2, 9, "Why this role?", .Intermediate⟩]

/-- Acceptance as claim C3 words it, stated from the claim for comparison
with `questionSchemaAccepts` (which is embedded from the source): the input
value is itself a non-empty list whose every element has a string question
text field and a difficulty in the enum. -/
def specListAccepts (j : Json) : Bool :=
  match j with
  | .arr xs => !xs.isEmpty && xs.all (fun x => (parseQItem x).isSome)
  | _ => false

/-- Invariant of the de-duplication cache: a network request has been logged
for exactly the roles present in the cache, and each at most once. -/
def CacheInv (s : PromiseCacheState) : Prop :=
  s.requestLog.Nodup ∧
  ∀ r : String, r ∈ s.requestLog ↔ (cacheLookup s.cache r).isSome = true

/-- What one `goToNextQuestion` step at (0-based) question index `m` does,
as observable effects: persists the one captured answer exactly when the
submission succeeds, invokes the Status Transition Gate exactly when this is
the last index and the submission succeeded, and navigates to index `m + 1`
(or to the completion screen from the last index) unconditionally. -/
def StepSpec (interviewId applicantId : Int) (qs : List Question)
    (transcriptAt : Nat → String) (submitOkAt : Nat → Bool) (m : Nat)
    (r : StepResult) : Prop :=
  r.persisted = (if submitOkAt m then
      [⟨interviewId, questionIdAt qs (m : Int), applicantId, transcriptAt m⟩]
    else []) ∧
  r.statusCalls = (if submitOkAt m = true ∧ m = qs.length - 1 then 1 else 0) ∧
  r.nav = (if m = qs.length - 1 then Nav.toComplete applicantId interviewId
    else Nav.toQuestion applicantId interviewId (questionIdAt qs ((m : Int) + 1)))

/-- Shape of a session suffix starting at question index `k`: one step per
remaining question, the `j`-th of them at index `k + j` and behaving as
`StepSpec` describes. -/
def TraceSpec (interviewId applicantId : Int) (qs : List Question)
    (transcriptAt : Nat → String) (submitOkAt : Nat → Bool) (k : Nat)
    (trace : List (Nat × StepResult)) : Prop :=
  trace.length = qs.length - k ∧
  ∀ j (hj : j < trace.length),
    (trace.get ⟨j, hj⟩).1 = k + j ∧
    StepSpec interviewId applicantId qs transcriptAt submitOkAt (k + j)
      (trace.get ⟨j, hj⟩).2

/-! ## Simple helper lemmas -/

/-- The expression `transcript || ''` is the identity on strings (the empty string is the
only falsy string). -/
theorem transcript_or_empty (s : String) : (if s == "" then "" else s) = s := by
  by_cases h : s = ""
  · simp [h]
  · simp [h]

/-- Propositional form of `transcript_or_empty`. -/
theorem transcript_if_empty (s : String) : (if s = "" then "" else s) = s := by
  by_cases h : s = ""
  · simp [h]
  · simp [h]

/-! ## Claims -/

/-- Claim C6: the Status Transition Gate is idempotent — applying
`updateApplicantStatus(id, 'Completed')` a second time leaves the applicant
record exactly as after the first call (no further state change, no error:
the PATCH is total on the record), and the resulting `interview_status` is
`Completed`; moreover a single call already forces `Completed` from any
prior status, so the flag is monotone one-way. -/
theorem completeApplicant_idempotent (a : Applicant) :
    completeApplicant (completeApplicant a) = completeApplicant a ∧
    (completeApplicant a).interview_status = "Completed" ∧
    (∀ b : Applicant, (completeApplicant b).interview_status = "Completed") := by
  exact ⟨rfl, rfl, fun _ => rfl⟩

/-- Claim C8: with an empty question list, `startInterview` performs no
navigation and the start control is disabled, so the question flow is never
entered with zero questions. -/
theorem startInterview_empty_no_nav (applicantId interviewId : Int)
    (qs : List Question) (h : qs.length = 0) :
    startInterview applicantId interviewId qs = none ∧
    startButtonDisabled qs = true := by
  have hqs : qs = [] := List.length_eq_zero.mp h
  subst hqs
  exact ⟨rfl, rfl⟩

/-- Witness for C8 at the concrete empty list. -/
theorem startInterview_empty_no_nav_witness :
    startInterview 7 9 [] = none ∧ startButtonDisabled [] = true :=
  startInterview_empty_no_nav 7 9 [] rfl

/-- Claim C7: when the applicant never speaks the transcript is `""`, and
`goToNextQuestion` submits an answer record whose `answer` field is the
empty string — treated as a valid skipped answer (no alert, the answer is
persisted) — and the walk proceeds normally: to the next question when not
last, and to the completion screen with the Status Transition Gate fired
when last. -/
theorem emptyTranscript_valid_skip (interviewId applicantId : Int)
    (qs : List Question) (questionId : Int) (answers : List (Int × String)) :
    goToNextQuestion interviewId applicantId qs questionId "" answers true true =
      (if currentQuestionIndex qs questionId == (qs.length : Int) - 1 then
        { persisted := [⟨interviewId, questionId, applicantId, ""⟩],
          statusCalls := 1, statusSet := true, alerted := false,
          answers := (questionId, "") :: answers,
          nav := Nav.toComplete applicantId interviewId }
      else
        { persisted := [⟨interviewId, questionId, applicantId, ""⟩],
          statusCalls := 0, statusSet := false, alerted := false,
          answers := (questionId, "") :: answers,
          nav := Nav.toQuestion applicantId interviewId
            (questionIdAt qs (currentQuestionIndex qs questionId + 1)) }) := by
  by_cases h : currentQuestionIndex qs questionId == (qs.length : Int) - 1
  · simp [goToNextQuestion, h]
  · simp only [Bool.not_eq_true] at h
    simp [goToNextQuestion, h]

/-- Claim C1 (the code contradicts it): at a concrete non-last question with
a failing `submitApplicantAnswer`, `goToNextQuestion` persists nothing,
fires the generic alert, and nevertheless navigates to the next question —
the walker does advance on persistence failure, and no `PersistenceError`
reaches the caller (the promise rejection is swallowed by the catch). -/
theorem goToNextQuestion_advances_despite_persistence_failure :
    (goToNextQuestion 9 7 sampleQuestions 1 "hello" [] false true).persisted = [] ∧
    (goToNextQuestion 9 7 sampleQuestions 1 "hello" [] false true).alerted = true ∧
    (goToNextQuestion 9 7 sampleQuestions 1 "hello" [] false true).nav =
      Nav.toQuestion 7 9 2 := by
  exact ⟨rfl, rfl, rfl⟩

/-- Claim C10: if answer submission throws on the last question, the
applicant is still navigated to the completion screen — which unconditionally
announces that the responses were recorded — while the status update is
skipped (never invoked) and the last answer is not persisted. -/
theorem lastQuestion_failure_navigates_complete (interviewId applicantId : Int)
    (qs : List Question) (questionId : Int) (transcript : String)
    (answers : List (Int × String)) (statusOk : Bool) (title : String)
    (hlast : currentQuestionIndex qs questionId = (qs.length : Int) - 1) :
    (goToNextQuestion interviewId applicantId qs questionId transcript answers
        false statusOk).persisted = [] ∧
    (goToNextQuestion interviewId applicantId qs questionId transcript answers
        false statusOk).statusCalls = 0 ∧
    (goToNextQuestion interviewId applicantId qs questionId transcript answers
        false statusOk).statusSet = false ∧
    (goToNextQuestion interviewId applicantId qs questionId transcript answers
        false statusOk).nav = Nav.toComplete applicantId interviewId ∧
    "Your responses have been successfully recorded." ∈
      interviewCompleteScreen title := by
  refine ⟨?_, ?_, ?_, ?_, ?_⟩ <;>
    simp [goToNextQuestion, hlast, interviewCompleteScreen]

/-- Witness for C10: the concrete two-question interview, failing submission
at the last question (id 2). -/
theorem lastQuestion_failure_navigates_complete_witness :
    (goToNextQuestion 9 7 sampleQuestions 2 "x" [] false true).persisted = [] ∧
    (goToNextQuestion 9 7 sampleQuestions 2 "x" [] false true).statusCalls = 0 ∧
    (goToNextQuestion 9 7 sampleQuestions 2 "x" [] false true).statusSet = false ∧
    (goToNextQuestion 9 7 sampleQuestions 2 "x" [] false true).nav =
      Nav.toComplete 7 9 ∧
    "Your responses have been successfully recorded." ∈
      interviewCompleteScreen "Graduate Developer" :=
  lastQuestion_failure_navigates_complete 9 7 sampleQuestions 2 "x" [] true
    "Graduate Developer" (by decide)

/-- One step of `parseQItems` as a boolean conjunction. -/
theorem parseQItems_cons_isSome (j : Json) (rest : List Json) :
    (parseQItems (j :: rest)).isSome =
      ((parseQItem j).isSome && (parseQItems rest).isSome) := by
  simp only [parseQItems]
  cases parseQItem j <;> cases parseQItems rest <;> rfl

/-- Parsing via `parseQItems` succeeds exactly when every element parses. -/
theorem parseQItems_isSome_iff (xs : List Json) :
    (parseQItems xs).isSome = true ↔ ∀ x ∈ xs, (parseQItem x).isSome = true := by
  induction xs with
  | nil => simp [parseQItems]
  | cons j rest ih =>
    rw [parseQItems_cons_isSome, Bool.and_eq_true, ih]
    simp

/-- Claim C3 (as stated, refuted): a bare non-empty list of shape-valid
items — which the claim says the Schema Validator accepts — is rejected by
the code: `QuestionSchema` only accepts an object wrapping such a list in a
`questions` field. -/
theorem questionSchema_rejects_bare_list :
    specListAccepts (Json.arr [sampleEasyItem]) = true ∧
    questionSchemaAccepts (Json.arr [sampleEasyItem]) = false := by
  exact ⟨rfl, rfl⟩

/-- Claim C3 (amended): the Schema Validator accepts a value iff it is an
object whose `questions` field is a non-empty list in which every element
has a string question text field and a difficulty equal to one of Easy,
Intermediate or Advanced; any other shape is rejected wholesale, and the
number of items is not checked (an object wrapping a shape-valid 2-item
list is accepted). -/
theorem questionSchema_accepts_iff :
    (∀ j : Json, questionSchemaAccepts j = true ↔
      ∃ fs xs, j = Json.obj fs ∧
        lookupField fs "questions" = some (Json.arr xs) ∧
        xs ≠ [] ∧ ∀ x ∈ xs, (parseQItem x).isSome = true) ∧
    questionSchemaAccepts
      (Json.obj [("questions", Json.arr [sampleEasyItem, sampleEasyItem2])]) =
        true := by
  constructor
  · intro j
    constructor
    · intro hacc
      cases j with
      | obj fs =>
        simp only [questionSchemaAccepts, questionSchemaParse] at hacc
        cases hq : lookupField fs "questions" with
        | none => simp [hq] at hacc
        | some v =>
          cases v with
          | arr xs =>
            cases hp : parseQItems xs with
            | none => simp [hq, hp] at hacc
            | some items =>
              by_cases he : xs.isEmpty
              · simp [hq, hp, he] at hacc
              · refine ⟨fs, xs, rfl, hq, ?_, ?_⟩
                · intro h0
                  subst h0
                  simp [List.isEmpty] at he
                · exact (parseQItems_isSome_iff xs).mp (by rw [hp]; rfl)
          | null => simp [hq] at hacc
          | bool b => simp [hq] at hacc
          | num n => simp [hq] at hacc
          | str s => simp [hq] at hacc
          | obj fs2 => simp [hq] at hacc
      | null => simp [questionSchemaAccepts, questionSchemaParse] at hacc
      | bool b => simp [questionSchemaAccepts, questionSchemaParse] at hacc
      | num n => simp [questionSchemaAccepts, questionSchemaParse] at hacc
      | str s => simp [questionSchemaAccepts, questionSchemaParse] at hacc
      | arr xs => simp [questionSchemaAccepts, questionSchemaParse] at hacc
    · rintro ⟨fs, xs, rfl, hq, hne, hall⟩
      obtain ⟨items, hp⟩ :=
        Option.isSome_iff_exists.mp ((parseQItems_isSome_iff xs).mpr hall)
      have hempty : xs.isEmpty = false := by
        cases xs with
        | nil => exact absurd rfl hne
        | cons x rest => rfl
      simp [questionSchemaAccepts, questionSchemaParse, hq, hp, hempty]
  · rfl

/-- Witness for the amended C3 at a concrete accepted value. -/
theorem questionSchema_accepts_iff_witness :
    ∃ fs xs, (Json.obj [("questions", Json.arr [sampleEasyItem])]) = Json.obj fs ∧
      lookupField fs "questions" = some (Json.arr xs) ∧
      xs ≠ [] ∧ ∀ x ∈ xs, (parseQItem x).isSome = true :=
  (questionSchema_accepts_iff.1 _).mp rfl

/-- Parsing via `parseQItems` preserves length: the typed list has one item per array
element. -/
theorem parseQItems_length (xs : List Json) (items : List QItem)
    (h : parseQItems xs = some items) : items.length = xs.length := by
  induction xs generalizing items with
  | nil =>
    simp only [parseQItems, Option.some.injEq] at h
    subst h
    rfl
  | cons j rest ih =>
    simp only [parseQItems] at h
    cases hj : parseQItem j with
    | none => rw [hj] at h; simp at h
    | some it =>
      rw [hj] at h
      cases hr : parseQItems rest with
      | none => rw [hr] at h; simp at h
      | some its =>
        rw [hr] at h
        simp only [Option.some.injEq] at h
        subst h
        simp [ih its hr]

/-- A successful server-side schema parse always yields a non-empty list. -/
theorem serverQuestionSchemaParse_ne_nil (out : Json) (items : List QItem)
    (hp : serverQuestionSchemaParse out = some items) : items ≠ [] := by
  cases out with
  | obj fs =>
    simp only [serverQuestionSchemaParse] at hp
    cases hq : lookupField fs "questions" with
    | none => simp [hq] at hp
    | some v =>
      cases v with
      | arr xs =>
        cases hpq : parseQItems xs with
        | none => simp [hq, hpq] at hp
        | some its =>
          by_cases he : xs.isEmpty
          · simp [hq, hpq, he] at hp
          · simp only [hq, hpq] at hp
            rw [if_neg (by simpa using he)] at hp
            simp only [Option.some.injEq] at hp
            intro h0
            have hlen := parseQItems_length xs its hpq
            rw [hp, h0] at hlen
            cases xs with
            | nil => simp [List.isEmpty] at he
            | cons y ys => simp at hlen
      | null => simp [hq] at hp
      | bool b => simp [hq] at hp
      | num n => simp [hq] at hp
      | str s => simp [hq] at hp
      | obj fs2 => simp [hq] at hp
  | null => simp [serverQuestionSchemaParse] at hp
  | bool b => simp [serverQuestionSchemaParse] at hp
  | num n => simp [serverQuestionSchemaParse] at hp
  | str s => simp [serverQuestionSchemaParse] at hp
  | arr xs => simp [serverQuestionSchemaParse] at hp

/-- Claim C9 (as stated, refuted): the server's `/api/generate-question`
endpoint responds successfully (200, `res.json(parsed.data)`) to a
schema-valid model output of only 2 items, both Easy — the fixed 10-item
3/3/4 output shape is not enforced before responding. -/
theorem server_ok_with_two_items_counterexample :
    generateQuestionHandler (some "Nurse") true
        (Json.obj [("questions", Json.arr [sampleEasyItem, sampleEasyItem2])]) =
      ServerReply.okJson (suggestionListToJson
        [⟨"Tell me about yourself", .Easy⟩, ⟨"Why this role?", .Easy⟩]) ∧
    ([⟨"Tell me about yourself", .Easy⟩,
      ⟨"Why this role?", .Easy⟩] : List QItem).length = 2 := by
  exact ⟨rfl, rfl⟩

/-- Claim C9 (amended): a successful response of `generateQuestions`
contains exactly the validated model output — a non-empty question list in
which every item has a string question and a difficulty in {Easy,
Intermediate, Advanced} — and the server enforces only this shape (plus a
present, non-empty role string and a model call that resolves) before
responding; the 10-item 3/3/4 split is requested in the prompt but not
enforced. -/
theorem generateQuestionHandler_ok_iff (role : Option String) (modelOk : Bool)
    (out b : Json) :
    generateQuestionHandler role modelOk out = ServerReply.okJson b ↔
      (∃ s, role = some s ∧ s ≠ "") ∧ modelOk = true ∧
      ∃ items, serverQuestionSchemaParse out = some items ∧ items ≠ [] ∧
        b = suggestionListToJson items := by
  cases role with
  | none => simp [generateQuestionHandler]
  | some s =>
    by_cases hs : s = ""
    · subst hs
      simp [generateQuestionHandler]
    · have hbeq : (s == "") = false := by simp [hs]
      cases modelOk with
      | false => simp [generateQuestionHandler, hbeq]
      | true =>
        cases hp : serverQuestionSchemaParse out with
        | none => simp [generateQuestionHandler, hbeq, hp]
        | some items =>
          have hne : items ≠ [] := serverQuestionSchemaParse_ne_nil out items hp
          have hcomp : generateQuestionHandler (some s) true out =
              ServerReply.okJson (suggestionListToJson items) := by
            simp [generateQuestionHandler, hbeq, hp]
          constructor
          · intro h
            rw [hcomp] at h
            injection h with hb
            exact ⟨⟨s, rfl, hs⟩, rfl, items, rfl, hne, hb.symm⟩
          · rintro ⟨-, -, items2, hitems2, -, rfl⟩
            injection hitems2 with h2
            rw [← h2]
            exact hcomp

/-- Witness for the amended C9 at a concrete successful request. -/
theorem generateQuestionHandler_ok_iff_witness :
    (∃ s, (some "Nurse" : Option String) = some s ∧ s ≠ "") ∧ (true = true) ∧
    ∃ items,
      serverQuestionSchemaParse
        (Json.obj [("questions", Json.arr [sampleEasyItem, sampleEasyItem2])]) =
          some items ∧ items ≠ [] ∧
      suggestionListToJson
        [⟨"Tell me about yourself", .Easy⟩, ⟨"Why this role?", .Easy⟩] =
        suggestionListToJson items :=
  (generateQuestionHandler_ok_iff (some "Nurse") true
    (Json.obj [("questions", Json.arr [sampleEasyItem, sampleEasyItem2])])
    (suggestionListToJson
      [⟨"Tell me about yourself", .Easy⟩, ⟨"Why this role?", .Easy⟩])).mp rfl

/-- Unfolding equation for a `getQuestionPromise` call sequence. -/
theorem runGetQuestionPromises_cons (r : String) (rs : List String)
    (s : PromiseCacheState) :
    runGetQuestionPromises (r :: rs) s =
      ((getQuestionPromise r s).1 ::
          (runGetQuestionPromises rs (getQuestionPromise r s).2).1,
        (runGetQuestionPromises rs (getQuestionPromise r s).2).2) := by
  rfl

/-- A cached entry survives any further `getQuestionPromise` call with the
same handle: the code never deletes or overwrites cache entries. -/
theorem getQuestionPromise_preserves (s : PromiseCacheState) (role r : String)
    (h : Nat) (hc : cacheLookup s.cache r = some h) :
    cacheLookup ((getQuestionPromise role s).2).cache r = some h := by
  unfold getQuestionPromise
  cases hc0 : cacheLookup s.cache role with
  | some h0 => simpa using hc
  | none =>
    simp only [cacheLookup]
    by_cases hr : role = r
    · subst hr
      rw [hc0] at hc
      cases hc
    · rw [if_neg hr]
      exact hc

/-- After a `getQuestionPromise` call, the returned handle is the one cached
under the requested role. -/
theorem getQuestionPromise_self (role : String) (s : PromiseCacheState) :
    cacheLookup ((getQuestionPromise role s).2).cache role =
      some (getQuestionPromise role s).1 := by
  unfold getQuestionPromise
  cases hc0 : cacheLookup s.cache role with
  | some h0 => simpa using hc0
  | none => simp [cacheLookup]

/-- A cached entry survives a whole sequence of calls. -/
theorem runGetQuestionPromises_preserves (roles : List String) :
    ∀ (s : PromiseCacheState) (r : String) (h : Nat),
      cacheLookup s.cache r = some h →
        cacheLookup ((runGetQuestionPromises roles s).2).cache r = some h := by
  induction roles with
  | nil => intro s r h hc; exact hc
  | cons r0 rs ih =>
    intro s r h hc
    rw [runGetQuestionPromises_cons]
    exact ih _ r h (getQuestionPromise_preserves s r0 r h hc)

/-- Every call in a sequence observes exactly the handle that the final
cache holds for its role. -/
theorem runGetQuestionPromises_results_cached (roles : List String) :
    ∀ (s : PromiseCacheState),
      ∀ p ∈ roles.zip (runGetQuestionPromises roles s).1,
        cacheLookup ((runGetQuestionPromises roles s).2).cache p.1 = some p.2 := by
  induction roles with
  | nil => intro s p hp; simp [runGetQuestionPromises] at hp
  | cons r0 rs ih =>
    intro s p hp
    rw [runGetQuestionPromises_cons] at hp ⊢
    simp only [List.zip_cons_cons, List.mem_cons] at hp
    rcases hp with rfl | hp
    · exact runGetQuestionPromises_preserves rs _ r0 _
        (getQuestionPromise_self r0 s)
    · exact ih _ p hp

/-- The cache invariant holds initially. -/
theorem cacheInv_initial : CacheInv initialCacheState := by
  constructor
  · exact List.nodup_nil
  · intro r
    simp [initialCacheState, cacheLookup]

/-- One `getQuestionPromise` call preserves the cache invariant, and a role
is in the request log afterwards iff it was already there or is the role
just requested. -/
theorem getQuestionPromise_inv (role : String) (s : PromiseCacheState)
    (h : CacheInv s) :
    CacheInv (getQuestionPromise role s).2 ∧
    ∀ r, r ∈ (getQuestionPromise role s).2.requestLog ↔
      r ∈ s.requestLog ∨ r = role := by
  obtain ⟨hnd, hiff⟩ := h
  unfold getQuestionPromise
  cases hc0 : cacheLookup s.cache role with
  | some h0 =>
    refine ⟨⟨hnd, hiff⟩, ?_⟩
    intro r
    simp only []
    constructor
    · intro hr
      exact Or.inl hr
    · rintro (hr | rfl)
      · exact hr
      · exact (hiff r).mpr (by rw [hc0]; rfl)
  | none =>
    have hrole : role ∉ s.requestLog := by
      intro hmem
      have := (hiff role).mp hmem
      rw [hc0] at this
      cases this
    constructor
    · constructor
      · simp [List.nodup_append, hnd, hrole]
      · intro r
        simp only [cacheLookup, List.mem_append, List.mem_singleton]
        by_cases hr : role = r
        · subst hr
          simp
        · have hr2 : ¬(r = role) := fun hh => hr hh.symm
          rw [if_neg hr]
          simp [hr2, hiff r]
    · intro r
      simp [List.mem_append]
  
/-- A sequence of calls preserves the cache invariant; a role is in the
final request log iff it started there or was requested. -/
theorem runGetQuestionPromises_inv (roles : List String) :
    ∀ (s : PromiseCacheState), CacheInv s →
      CacheInv (runGetQuestionPromises roles s).2 ∧
      ∀ r, r ∈ (runGetQuestionPromises roles s).2.requestLog ↔
        r ∈ s.requestLog ∨ r ∈ roles := by
  induction roles with
  | nil =>
    intro s hs
    refine ⟨hs, ?_⟩
    intro r
    simp [runGetQuestionPromises]
  | cons r0 rs ih =>
    intro s hs
    obtain ⟨hs1, hmem1⟩ := getQuestionPromise_inv r0 s hs
    obtain ⟨hs2, hmem2⟩ := ih _ hs1
    rw [runGetQuestionPromises_cons]
    refine ⟨hs2, ?_⟩
    intro r
    rw [hmem2 r, hmem1 r]
    simp only [List.mem_cons]
    tauto

/-- Claim C4: starting from the module's pristine state, for any sequence of
`getQuestionPromise` calls and any job-role string, (1) the underlying
network request for that role is issued exactly once if the role is ever
requested and never otherwise — so at most one request per role for the life
of the process, triggered by the first call; (2) every call for that role
(earlier or later, whether the request later succeeds or fails) observes the
one handle the cache holds for it; and (3) a cache entry, once present, is
never removed or replaced by any further call. -/
theorem promiseCache_dedup :
    (∀ (roles : List String) (r : String),
      ((runGetQuestionPromises roles initialCacheState).2).requestLog.count r =
        (if r ∈ roles then 1 else 0) ∧
      ∀ p ∈ roles.zip (runGetQuestionPromises roles initialCacheState).1,
        p.1 = r →
          cacheLookup ((runGetQuestionPromises roles initialCacheState).2).cache
            r = some p.2) ∧
    (∀ (s : PromiseCacheState) (role r : String) (h : Nat),
      cacheLookup s.cache r = some h →
        cacheLookup ((getQuestionPromise role s).2).cache r = some h) := by
  constructor
  · intro roles r
    obtain ⟨⟨hnodup, -⟩, hmem⟩ :=
      runGetQuestionPromises_inv roles initialCacheState cacheInv_initial
    constructor
    · have hmemr := hmem r
      simp only [initialCacheState, List.not_mem_nil, false_or] at hmemr
      by_cases hr : r ∈ roles
      · rw [if_pos hr]
        have hle := List.nodup_iff_count_le_one.mp hnodup r
        have hpos : 0 < ((runGetQuestionPromises roles
            initialCacheState).2).requestLog.count r :=
          List.count_pos_iff.mpr (hmemr.mpr hr)
        omega
      · rw [if_neg hr]
        exact List.count_eq_zero.mpr (fun hin => hr (hmemr.mp hin))
    · intro p hp hpr
      have := runGetQuestionPromises_results_cached roles initialCacheState p hp
      rwa [hpr] at this
  · exact getQuestionPromise_preserves

/-- Witness for C4: two calls for "Nurse" and one for "Chef" issue exactly
one "Nurse" request, and both "Nurse" calls observe the same cached
handle. -/
theorem promiseCache_dedup_witness :
    ((runGetQuestionPromises ["Nurse", "Nurse", "Chef"]
        initialCacheState).2).requestLog.count "Nurse" = 1 ∧
    cacheLookup ((runGetQuestionPromises ["Nurse", "Nurse", "Chef"]
        initialCacheState).2).cache "Nurse" = some 0 := by
  have h := promiseCache_dedup.1 ["Nurse", "Nurse", "Chef"] "Nurse"
  refine ⟨by simpa using h.1, ?_⟩
  have h2 := h.2 ("Nurse", 0) (by decide) rfl
  exact h2

/-- With pairwise-distinct question ids (they are store-assigned primary
keys), `findIndex` recovers the position of a question from its id. -/
theorem findIndexById_get (qs : List Question)
    (hnd : (qs.map Question.id).Nodup) :
    ∀ (k : Nat) (hk : k < qs.length),
      findIndexById qs (qs.get ⟨k, hk⟩).id = (k : Int) := by
  induction qs with
  | nil => intro k hk; exact absurd hk (Nat.not_lt_zero k)
  | cons q rest ih =>
    intro k hk
    rw [List.map_cons, List.nodup_cons] at hnd
    obtain ⟨hq, hnd2⟩ := hnd
    cases k with
    | zero => simp [findIndexById]
    | succ k =>
      have hk2 : k < rest.length := Nat.lt_of_succ_lt_succ hk
      have hget : List.get (q :: rest) ⟨k + 1, hk⟩ = rest.get ⟨k, hk2⟩ := rfl
      rw [hget]
      have hmem : (rest.get ⟨k, hk2⟩).id ∈ rest.map Question.id :=
        List.mem_map_of_mem Question.id (rest.get_mem k hk2)
      have hne : (q.id == (rest.get ⟨k, hk2⟩).id) = false := by
        rw [beq_eq_false_iff_ne]
        intro heq
        exact hq (heq ▸ hmem)
      simp only [findIndexById, hne, Bool.false_eq_true, if_false]
      rw [ih hnd2 k hk2]
      have hne2 : (((k : Nat) : Int) == -1) = false := by
        rw [beq_eq_false_iff_ne]
        omega
      simp only [hne2, Bool.false_eq_true, if_false]
      omega

/-- In range, `questionIdAt` is the id of the question at that index. -/
theorem questionIdAt_get (qs : List Question) (k : Nat) (hk : k < qs.length) :
    questionIdAt qs (k : Int) = (qs.get ⟨k, hk⟩).id := by
  unfold questionIdAt
  rw [Int.toNat_natCast, List.get?_eq_get hk]

/-- One `goToNextQuestion` step at a question drawn from the list behaves as
`StepSpec` describes. -/
theorem goToNextQuestion_step (iid aid : Int) (qs : List Question)
    (hnd : (qs.map Question.id).Nodup) (tAt : Nat → String)
    (okAt : Nat → Bool) (sOk : Bool) (k : Nat) (hk : k < qs.length)
    (ans : List (Int × String)) :
    StepSpec iid aid qs tAt okAt k
      (goToNextQuestion iid aid qs ((qs.get ⟨k, hk⟩).id) (tAt k) ans
        (okAt k) sOk) := by
  have hidx : findIndexById qs (qs[k].id) = (k : Int) := by
    simpa using findIndexById_get qs hnd k hk
  have hqid : questionIdAt qs (k : Int) = qs[k].id := by
    simpa using questionIdAt_get qs k hk
  simp only [StepSpec]
  by_cases hl : k = qs.length - 1
  · subst hl
    have hP : (((qs.length - 1 : Nat) : Int)) = (qs.length : Int) - 1 := by
      omega
    have hqid2 : questionIdAt qs ((qs.length : Int) - 1) =
        qs[qs.length - 1].id := by
      rw [← hP]
      exact hqid
    cases hok : okAt (qs.length - 1) <;> cases sOk <;>
      simp [goToNextQuestion, currentQuestionIndex, hidx, hP, hok,
        transcript_or_empty, transcript_if_empty, hqid, hqid2]
  · have hP : ¬((((k : Nat)) : Int) = (qs.length : Int) - 1) := by
      omega
    cases hok : okAt k <;> cases sOk <;>
      simp [goToNextQuestion, currentQuestionIndex, hidx, hP, hok, hl,
        transcript_or_empty, transcript_if_empty, hqid]

/-- Status-gate count of a trace, one step at a time. -/
theorem totalStatusCalls_cons (p : Nat × StepResult)
    (l : List (Nat × StepResult)) :
    totalStatusCalls (p :: l) = p.2.statusCalls + totalStatusCalls l := by
  simp [totalStatusCalls]

/-- The session walk from question index `k` (with enough fuel for the
remaining questions) produces exactly one step per remaining question, each
behaving as `StepSpec` describes, and fires the Status Transition Gate
exactly when the last question's submission succeeds. -/
theorem walkAux_trace (iid aid : Int) (qs : List Question)
    (tAt : Nat → String) (okAt : Nat → Bool) (sOk : Bool)
    (hnd : (qs.map Question.id).Nodup) :
    ∀ (f k : Nat) (hk : k < qs.length) (ans : List (Int × String)),
      f = qs.length - k →
      TraceSpec iid aid qs tAt okAt k
        (walkAux iid aid qs tAt okAt sOk f ((qs.get ⟨k, hk⟩).id) ans) ∧
      totalStatusCalls
        (walkAux iid aid qs tAt okAt sOk f ((qs.get ⟨k, hk⟩).id) ans) =
        (if okAt (qs.length - 1) = true then 1 else 0) := by
  intro f
  induction f with
  | zero => intro k hk ans hf; omega
  | succ f ih =>
    intro k hk ans hf
    have hidx : findIndexById qs ((qs.get ⟨k, hk⟩).id) = (k : Int) :=
      findIndexById_get qs hnd k hk
    have htn : (currentQuestionIndex qs ((qs.get ⟨k, hk⟩).id)).toNat = k := by
      simp only [currentQuestionIndex]
      rw [hidx]
      exact Int.toNat_natCast k
    have hstep := goToNextQuestion_step iid aid qs hnd tAt okAt sOk k hk ans
    have hstep2 := hstep
    simp only [StepSpec] at hstep2
    obtain ⟨hpers, hcalls, hnav⟩ := hstep2
    have hunf : walkAux iid aid qs tAt okAt sOk (f + 1)
        ((qs.get ⟨k, hk⟩).id) ans =
        (k, goToNextQuestion iid aid qs ((qs.get ⟨k, hk⟩).id) (tAt k) ans
          (okAt k) sOk) ::
        (match (goToNextQuestion iid aid qs ((qs.get ⟨k, hk⟩).id) (tAt k) ans
            (okAt k) sOk).nav with
         | Nav.toQuestion _ _ qid2 =>
           walkAux iid aid qs tAt okAt sOk f qid2
             (goToNextQuestion iid aid qs ((qs.get ⟨k, hk⟩).id) (tAt k) ans
               (okAt k) sOk).answers
         | Nav.toComplete _ _ => []) := by
      simp only [walkAux, htn]
    by_cases hl : k = qs.length - 1
    · have hnavC : (goToNextQuestion iid aid qs ((qs.get ⟨k, hk⟩).id) (tAt k)
          ans (okAt k) sOk).nav = Nav.toComplete aid iid := by
        rw [hnav, if_pos hl]
      rw [hunf]
      simp only [hnavC]
      constructor
      · simp only [TraceSpec]
        constructor
        · simp only [List.length_cons, List.length_nil]
          omega
        · intro j hj
          have hj0 : j = 0 := by
            simp only [List.length_cons, List.length_nil] at hj
            omega
          subst hj0
          exact ⟨by simp, by simpa using hstep⟩
      · rw [totalStatusCalls_cons, hcalls]
        simp only [totalStatusCalls, List.map_nil, List.sum_nil]
        rw [hl]
        by_cases hok : okAt (qs.length - 1) = true <;> simp [hok]
    · have hk1 : k + 1 < qs.length := by omega
      have hnavQ : (goToNextQuestion iid aid qs ((qs.get ⟨k, hk⟩).id) (tAt k)
          ans (okAt k) sOk).nav =
          Nav.toQuestion aid iid ((qs.get ⟨k + 1, hk1⟩).id) := by
        rw [hnav, if_neg hl]
        have hcast : ((k : Nat) : Int) + 1 = (((k + 1 : Nat)) : Int) := by
          push_cast
          ring
        rw [hcast, questionIdAt_get qs (k + 1) hk1]
      rw [hunf]
      simp only [hnavQ]
      have hf2 : f = qs.length - (k + 1) := by omega
      obtain ⟨ihT, ihTot⟩ := ih (k + 1) hk1
        (goToNextQuestion iid aid qs ((qs.get ⟨k, hk⟩).id) (tAt k) ans
          (okAt k) sOk).answers hf2
      constructor
      · simp only [TraceSpec] at ihT ⊢
        obtain ⟨ihLen, ihEl⟩ := ihT
        constructor
        · simp only [List.length_cons, ihLen]
          omega
        · intro j hj
          cases j with
          | zero =>
            exact ⟨by simp, by simpa using hstep⟩
          | succ j =>
            simp only [List.length_cons] at hj
            have hj2 : j < (walkAux iid aid qs tAt okAt sOk f
                ((qs.get ⟨k + 1, hk1⟩).id)
                (goToNextQuestion iid aid qs ((qs.get ⟨k, hk⟩).id) (tAt k) ans
                  (okAt k) sOk).answers).length := by
              rw [ihLen]
              omega
            obtain ⟨hfst, hsp⟩ := ihEl j hj2
            have hadd : k + (j + 1) = (k + 1) + j := by omega
            constructor
            · simp only [List.get_cons_succ]
              rw [hfst]
              omega
            · simp only [List.get_cons_succ]
              rw [hadd]
              exact hsp
      · rw [totalStatusCalls_cons, hcalls]
        rw [if_neg (by tauto)]
        simpa using ihTot

/-- Claim C2: for an interview of N ≥ 1 questions (with store-assigned,
pairwise-distinct ids) and all persistence calls succeeding, a full session
walk takes exactly N `goToNextQuestion` steps, the j-th step at question
index j (so indices 0, 1, …, N-1 in order), each step persists exactly the
one answer captured for its question, every non-last step navigates to the
next question and the last step ends the session at the completion screen,
and the Status Transition Gate fires exactly once. -/
theorem sessionWalk_visits_all_and_completes (iid aid : Int)
    (qs : List Question) (tAt : Nat → String) (hN : 1 ≤ qs.length)
    (hnd : (qs.map Question.id).Nodup) :
    (runSession iid aid qs tAt (fun _ => true) true).length = qs.length ∧
    (∀ j (hj : j < (runSession iid aid qs tAt (fun _ => true) true).length),
      ((runSession iid aid qs tAt (fun _ => true) true).get ⟨j, hj⟩).1 = j ∧
      ((runSession iid aid qs tAt (fun _ => true) true).get ⟨j, hj⟩).2.persisted
        = [⟨iid, questionIdAt qs (j : Int), aid, tAt j⟩] ∧
      ((runSession iid aid qs tAt (fun _ => true) true).get ⟨j, hj⟩).2.nav =
        (if j = qs.length - 1 then Nav.toComplete aid iid
         else Nav.toQuestion aid iid (questionIdAt qs ((j : Int) + 1)))) ∧
    totalStatusCalls (runSession iid aid qs tAt (fun _ => true) true) = 1 := by
  cases qs with
  | nil => simp at hN
  | cons q rest =>
    have h0 : 0 < (q :: rest).length := by simp
    have heq : runSession iid aid (q :: rest) tAt (fun _ => true) true =
        walkAux iid aid (q :: rest) tAt (fun _ => true) true
          ((q :: rest).length) (((q :: rest).get ⟨0, h0⟩).id) [] := rfl
    obtain ⟨hT, hTot⟩ := walkAux_trace iid aid (q :: rest) tAt (fun _ => true)
      true hnd ((q :: rest).length) 0 h0 [] (by simp)
    simp only [TraceSpec] at hT
    obtain ⟨hLen, hEl⟩ := hT
    rw [heq]
    refine ⟨by rw [hLen]; simp, ?_, by rw [hTot]; simp⟩
    intro j hj
    obtain ⟨hfst, hsp⟩ := hEl j hj
    simp only [StepSpec] at hsp
    obtain ⟨hpers, hcalls, hnav⟩ := hsp
    refine ⟨by simpa using hfst, ?_, ?_⟩
    · rw [hpers]
      simp
    · rw [hnav]
      simp

/-- Witness for C2: the concrete two-question session of the spec's test
scenario takes 2 steps and fires the gate once. -/
theorem sessionWalk_visits_all_and_completes_witness :
    (runSession 9 7 sampleQuestions
      (fun k => if k = 0 then "I am a developer" else "") (fun _ => true)
      true).length = 2 ∧
    totalStatusCalls (runSession 9 7 sampleQuestions
      (fun k => if k = 0 then "I am a developer" else "") (fun _ => true)
      true) = 1 := by
  have h := sessionWalk_visits_all_and_completes 9 7 sampleQuestions
    (fun k => if k = 0 then "I am a developer" else "") (by decide) (by decide)
  exact ⟨by rw [h.1]; rfl, h.2.2⟩

/-- Claim C5: over any full session (arbitrary per-question submission
outcomes), the Status Transition Gate is invoked at most once, and any step
that invokes it is at the last question's index with that question's answer
submission having succeeded (its answer was persisted). -/
theorem statusGate_only_on_last_success (iid aid : Int) (qs : List Question)
    (tAt : Nat → String) (okAt : Nat → Bool) (sOk : Bool)
    (hN : 1 ≤ qs.length) (hnd : (qs.map Question.id).Nodup) :
    totalStatusCalls (runSession iid aid qs tAt okAt sOk) ≤ 1 ∧
    ∀ j (hj : j < (runSession iid aid qs tAt okAt sOk).length),
      0 < ((runSession iid aid qs tAt okAt sOk).get ⟨j, hj⟩).2.statusCalls →
        ((runSession iid aid qs tAt okAt sOk).get ⟨j, hj⟩).1 = qs.length - 1 ∧
        okAt (qs.length - 1) = true ∧
        ((runSession iid aid qs tAt okAt sOk).get ⟨j, hj⟩).2.persisted ≠ [] := by
  cases qs with
  | nil => simp at hN
  | cons q rest =>
    have h0 : 0 < (q :: rest).length := by simp
    have heq : runSession iid aid (q :: rest) tAt okAt sOk =
        walkAux iid aid (q :: rest) tAt okAt sOk
          ((q :: rest).length) (((q :: rest).get ⟨0, h0⟩).id) [] := rfl
    obtain ⟨hT, hTot⟩ := walkAux_trace iid aid (q :: rest) tAt okAt sOk hnd
      ((q :: rest).length) 0 h0 [] (by simp)
    simp only [TraceSpec] at hT
    obtain ⟨hLen, hEl⟩ := hT
    rw [heq]
    constructor
    · rw [hTot]
      split
      · exact le_refl 1
      · exact Nat.zero_le 1
    · intro j hj hpos
      obtain ⟨hfst, hsp⟩ := hEl j hj
      simp only [StepSpec] at hsp
      obtain ⟨hpers, hcalls, hnav⟩ := hsp
      rw [hcalls] at hpos
      by_cases hcond : okAt (0 + j) = true ∧ 0 + j = (q :: rest).length - 1
      · obtain ⟨hokj, hlast⟩ := hcond
        simp only [Nat.zero_add] at hokj hlast
        refine ⟨by rw [hfst]; omega, by rwa [← hlast], ?_⟩
        rw [hpers]
        simp only [Nat.zero_add, hokj]
        simp
      · rw [if_neg hcond] at hpos
        exact absurd hpos (by simp)

/-- Witness for C5: a session where every submission fails invokes the gate
no more than once (here: zero times). -/
theorem statusGate_only_on_last_success_witness :
    totalStatusCalls (runSession 9 7 sampleQuestions (fun _ => "")
      (fun _ => false) true) ≤ 1 := by
  have h := statusGate_only_on_last_success 9 7 sampleQuestions (fun _ => "")
    (fun _ => false) true (by decide) (by decide)
  exact h.1
